import Mathlib

/-!
Shallow embedding of `retrieve.py` (qiita_contribution).

Modelling conventions:
* `datetime` values are modelled as integers (seconds on a timeline); naive
  datetime comparison and `timedelta` arithmetic are order-isomorphic to this.
* HTTP responses are modelled as values handed to the functions: an item's
  metadata response is an `ItemResponse`, the stockers endpoint is a function
  `pages : ℕ → ℕ` giving the length of each page's result array.
* The unbounded `while True` pagination loop is modelled with explicit fuel;
  `none` means the loop did not terminate within the given fuel.
* Python floats are modelled by exact rationals `ℚ`; all quantities involved
  (small integer counts, halves) are exactly representable, so the rational
  computation coincides with the float computation in the representable range.
* A raised exception during a user fetch is modelled as `Except.error`.
-/

namespace QiitaContribution

/-- Fixed page size for all paginated endpoints (`PER_PAGE = 10`). -/
def PER_PAGE : ℕ := 10

/-- Loop body of `Item._get_stockers_count`: starting at `page` with
accumulated `acc`, add the length of the fetched page; a page shorter than
`PER_PAGE` is terminal, otherwise continue with the next page.  `fuel` bounds
the number of iterations; `none` means the loop has not terminated. -/
def getStockersLoop (pages : ℕ → ℕ) : ℕ → ℕ → ℕ → Option ℕ
  | 0, _, _ => none
  | fuel + 1, page, acc =>
    if pages page < PER_PAGE then some (acc + pages page)
    else getStockersLoop pages fuel (page + 1) (acc + pages page)

/-- `Item._get_stockers_count`: page through the stockers endpoint starting at
page 1, accumulating page lengths, until a page returns fewer than `PER_PAGE`
results. -/
def get_stockers_count (pages : ℕ → ℕ) (fuel : ℕ) : Option ℕ :=
  getStockersLoop pages fuel 1 0

/-- The parsed JSON body of `GET /items/:id` (the fields the code reads). -/
structure ItemResponse where
  created_at : ℤ
  updated_at : ℤ
  likes_count : ℕ
  comments_count : ℕ
deriving DecidableEq

/-- The state of an `Item` object after `Item.__init__` returns. -/
structure Item where
  created_at : ℤ
  updated_at : ℤ
  is_valid : Bool
  likes_count : ℕ
  stockers_count : ℕ
  comments_count : ℕ
deriving DecidableEq

/-- Test of `self.start is not None and self.updated_at < self.start`. -/
def beforeStart : Option ℤ → ℤ → Bool
  | none, _ => false
  | some s, u => decide (u < s)

/-- Test of `self.end is not None and self.created_at > self.end`. -/
def afterEnd : Option ℤ → ℤ → Bool
  | none, _ => false
  | some e, c => decide (e < c)

/-- `Item.__init__` after the metadata GET: apply the date-window checks; when
either fails, return early with `is_valid = false` and all counts zero.  When
valid, copy likes/comments from the response and fetch the stocker count.
The returned `Bool` records whether the stockers fetch was performed; `none`
means the stockers pagination loop did not terminate within `fuel`. -/
def Item.fetch (start stop : Option ℤ) (stockerPages : ℕ → ℕ) (fuel : ℕ)
    (resp : ItemResponse) : Option (Item × Bool) :=
  let base : Item :=
    { created_at := resp.created_at, updated_at := resp.updated_at,
      is_valid := false, likes_count := 0, stockers_count := 0,
      comments_count := 0 }
  if beforeStart start resp.updated_at then some (base, false)
  else if afterEnd stop resp.created_at then some (base, false)
  else
    match get_stockers_count stockerPages fuel with
    | none => none
    | some sc =>
        some ({ base with
                  is_valid := true,
                  likes_count := resp.likes_count,
                  comments_count := resp.comments_count,
                  stockers_count := sc }, true)

/-- The four per-user accumulators of `User._calc_contribution`. -/
structure Counts where
  items_count : ℕ
  likes_count : ℕ
  stockers_count : ℕ
  comments_count : ℕ
deriving DecidableEq

/-- One iteration of the accumulation loop of `User._calc_contribution`:
`items_count` gains 1 only when the item is valid; likes/stockers/comments
are added unconditionally. -/
def accumItem (acc : Counts) (it : Item) : Counts :=
  { items_count := acc.items_count + (if it.is_valid then 1 else 0),
    likes_count := acc.likes_count + it.likes_count,
    stockers_count := acc.stockers_count + it.stockers_count,
    comments_count := acc.comments_count + it.comments_count }

/-- The accumulation loop of `User._calc_contribution`, starting from the
zero-initialized fields of `User.__init__`. -/
def calcCounts (items : List Item) : Counts :=
  items.foldl accumItem
    { items_count := 0, likes_count := 0, stockers_count := 0,
      comments_count := 0 }

/-- The final lines of `User._calc_contribution`:
`int(math.floor(items_count + likes_count + 0.5 * stockers_count + 0.5))`,
with the float arithmetic modelled exactly in `ℚ`. -/
def calc_contribution (c : Counts) : ℤ :=
  ⌊(c.items_count : ℚ) + (c.likes_count : ℚ)
    + (0.5 : ℚ) * (c.stockers_count : ℚ) + (0.5 : ℚ)⌋

/-- The dictionary returned by `User.get_contribution`. -/
structure UserRecord where
  user_id : String
  followees : ℕ
  followers : ℕ
  items : ℕ
  likes : ℕ
  stockers : ℕ
  comments : ℕ
  contribution : ℤ
deriving DecidableEq

/-- Assemble a `UserRecord` from profile counts and the fetched items, the way
`User.__init__` followed by `User.get_contribution` does. -/
def buildUser (uid : String) (fe fo : ℕ) (items : List Item) : UserRecord :=
  let c := calcCounts items
  { user_id := uid, followees := fe, followers := fo,
    items := c.items_count, likes := c.likes_count,
    stockers := c.stockers_count, comments := c.comments_count,
    contribution := calc_contribution c }

/-- Sort key of `sorted(contributions, key=..., reverse=True)`: `a` may come
before `b` when `a`'s contribution is at least `b`'s. -/
def contribGE (a b : UserRecord) : Prop := b.contribution ≤ a.contribution

instance : DecidableRel contribGE :=
  fun a b => inferInstanceAs (Decidable (b.contribution ≤ a.contribution))

instance : IsTotal UserRecord contribGE :=
  ⟨fun a b => le_total b.contribution a.contribution⟩

instance : IsTrans UserRecord contribGE :=
  ⟨fun _ _ _ h1 h2 => le_trans h2 h1⟩

/-- Python's `sorted` is a stable sort; `insertionSort` with `contribGE`
places each element before the equal-scored elements that came later, which
is the same stable descending order. -/
def sortContributions (l : List UserRecord) : List UserRecord :=
  List.insertionSort contribGE l

/-- The data rows written by `main`: `enumerate` over the sorted records,
rank `i + 1` for the row at 0-based sorted position `i`. -/
def report (l : List UserRecord) : List (ℕ × UserRecord) :=
  (sortContributions l).enum.map (fun p => (p.1 + 1, p.2))

/-- The `try/except/continue` loop of `main`: keep the records of the users
whose fetch succeeded, in input order; failures are skipped. -/
def okRecords (results : List (Except String UserRecord)) : List UserRecord :=
  results.filterMap
    (fun r => match r with
      | Except.ok u => some u
      | Except.error _ => none)

/-- Message of the `ValueError` raised when no user succeeded. -/
def noDataMsg : String := "No user was able to get the information"

/-- `main` after argument parsing: aggregate each user (outcomes given as
`results`), fail when no user succeeded, otherwise produce the ranked data
rows.  The output file is opened only in the `Except.ok` branch of the
source, so `Except.error` means no output file content is produced. -/
def runMain (results : List (Except String UserRecord)) :
    Except String (List (ℕ × UserRecord)) :=
  let contributions := okRecords results
  if contributions.length < 1 then Except.error noDataMsg
  else Except.ok (report contributions)

/-- `timedelta(days=1)` in seconds. -/
def secondsPerDay : ℤ := 86400

/-- End-date normalization in `main`: the parsed `--end` date is midnight
(`dayStart`) of the given calendar day; the code adds one day and subtracts
one second. -/
def normalizeEnd (dayStart : ℤ) : ℤ := dayStart + secondsPerDay - 1

/-- Pure-integer contribution following the claim's words:
`items_count + likes_count + ceil(stockers_count / 2)`. -/
def contribution_intSpec (i l s : ℕ) : ℤ :=
  (i : ℤ) + (l : ℤ) + ⌈(s : ℚ) / 2⌉

/-- Floor of half a natural number plus one half equals the ceiling of the
half. -/
theorem floor_half_add_half (s : ℕ) :
    ⌊(s : ℚ) / 2 + 1 / 2⌋ = ⌈(s : ℚ) / 2⌉ := by
  rcases Nat.even_or_odd s with ⟨k, hk⟩ | ⟨k, hk⟩
  · subst hk
    have h1 : ((k + k : ℕ) : ℚ) / 2 = (k : ℚ) := by push_cast; ring
    rw [h1, Int.ceil_natCast, Int.floor_nat_add]
    norm_num
  · subst hk
    have h1 : ((2 * k + 1 : ℕ) : ℚ) / 2 = (k : ℚ) + 1 / 2 := by push_cast; ring
    have h2 : (k : ℚ) + 1 / 2 + 1 / 2 = ((k + 1 : ℕ) : ℚ) := by push_cast; ring
    have h3 : (k : ℚ) + 1 / 2 = 1 / 2 + (k : ℕ) := by ring
    have h4 : ⌈(1 : ℚ) / 2⌉ = 1 := by
      rw [Int.ceil_eq_iff]
      norm_num
    rw [h1, h2, Int.floor_natCast, h3, Int.ceil_add_nat, h4]
    push_cast
    ring

/-- Closed form of `calc_contribution`: the integer parts come out of the
floor and the half-plus-half becomes a ceiling. -/
theorem calc_contribution_eq_ceil (c : Counts) :
    calc_contribution c
      = (c.items_count : ℤ) + (c.likes_count : ℤ)
          + ⌈(c.stockers_count : ℚ) / 2⌉ := by
  unfold calc_contribution
  have h05 : (0.5 : ℚ) = 1 / 2 := by norm_num
  have h1 : (c.items_count : ℚ) + (c.likes_count : ℚ)
        + 1 / 2 * (c.stockers_count : ℚ) + 1 / 2
      = ((c.items_count + c.likes_count : ℕ) : ℚ)
          + ((c.stockers_count : ℚ) / 2 + 1 / 2) := by
    push_cast; ring
  rw [h05, h1, Int.floor_nat_add, floor_half_add_half]
  push_cast
  ring

/-- Ceiling of half a natural number is `(s + 1) / 2` in integer division. -/
theorem ceil_half_eq (s : ℕ) : ⌈(s : ℚ) / 2⌉ = (((s + 1) / 2 : ℕ) : ℤ) := by
  rcases Nat.even_or_odd s with ⟨k, hk⟩ | ⟨k, hk⟩
  · subst hk
    have h1 : ((k + k : ℕ) : ℚ) / 2 = (k : ℚ) := by push_cast; ring
    rw [h1, Int.ceil_natCast]
    have h2 : (k + k + 1) / 2 = k := by omega
    rw [h2]
  · subst hk
    have h1 : ((2 * k + 1 : ℕ) : ℚ) / 2 = 1 / 2 + (k : ℕ) := by push_cast; ring
    have h4 : ⌈(1 : ℚ) / 2⌉ = 1 := by
      rw [Int.ceil_eq_iff]
      norm_num
    rw [h1, Int.ceil_add_nat, h4]
    have h2 : (2 * k + 1 + 1) / 2 = k + 1 := by omega
    rw [h2]
    push_cast
    ring

/-- Value of the pagination loop when the first short page sits at offset `d`
from the start page and the fuel suffices. -/
theorem getStockersLoop_eq (pages : ℕ → ℕ) :
    ∀ (d fuel p acc : ℕ), pages (p + d) < PER_PAGE →
      (∀ j, j < d → PER_PAGE ≤ pages (p + j)) → d < fuel →
      getStockersLoop pages fuel p acc
        = some (acc + ((List.range' p (d + 1)).map pages).sum) := by
  intro d
  induction d with
  | zero =>
      intro fuel p acc hshort _ hfuel
      cases fuel with
      | zero => exact absurd hfuel (by omega)
      | succ f =>
          rw [Nat.add_zero] at hshort
          simp only [getStockersLoop, if_pos hshort]
          simp [List.range']
  | succ d ih =>
      intro fuel p acc hshort hmin hfuel
      cases fuel with
      | zero => exact absurd hfuel (by omega)
      | succ f =>
          have hp : PER_PAGE ≤ pages p := by
            have := hmin 0 (Nat.succ_pos d)
            rwa [Nat.add_zero] at this
          have hnp : ¬ pages p < PER_PAGE := by omega
          simp only [getStockersLoop]
          rw [if_neg hnp]
          have hshort2 : pages (p + 1 + d) < PER_PAGE := by
            rw [show p + 1 + d = p + (d + 1) by omega]
            exact hshort
          have hmin2 : ∀ j, j < d → PER_PAGE ≤ pages (p + 1 + j) := by
            intro j hj
            have := hmin (j + 1) (by omega)
            rwa [show p + (j + 1) = p + 1 + j by omega] at this
          rw [ih f (p + 1) (acc + pages p) hshort2 hmin2 (by omega)]
          congr 1
          rw [List.range'_succ p (d + 1) 1]
          simp [Nat.add_assoc]

/-- When every page from page 1 on is full, the pagination loop never
terminates, whatever the fuel. -/
theorem getStockersLoop_none (pages : ℕ → ℕ)
    (hall : ∀ n, 1 ≤ n → PER_PAGE ≤ pages n) :
    ∀ fuel p acc, 1 ≤ p → getStockersLoop pages fuel p acc = none := by
  intro fuel
  induction fuel with
  | zero => intro p acc _; rfl
  | succ f ih =>
      intro p acc hp
      have hfull := hall p hp
      have hnp : ¬ pages p < PER_PAGE := by omega
      simp only [getStockersLoop]
      rw [if_neg hnp]
      exact ih (p + 1) (acc + pages p) (by omega)

/-- C4: `get_stockers_count` treats the first page shorter than `PER_PAGE`
(page `k` below) as terminal and returns the sum of the lengths of pages
`1..k`; and for some fuel it terminates precisely when some page is shorter
than `PER_PAGE` — with no short page, no amount of fuel terminates the
loop. -/
theorem stockers_pagination (pages : ℕ → ℕ) :
    (∀ k, 1 ≤ k → pages k < PER_PAGE →
      (∀ i, 1 ≤ i → i < k → PER_PAGE ≤ pages i) →
      ∀ fuel, k ≤ fuel →
        get_stockers_count pages fuel
          = some (((List.range' 1 k).map pages).sum))
    ∧ ((∃ fuel, (get_stockers_count pages fuel).isSome)
        ↔ (∃ n, 1 ≤ n ∧ pages n < PER_PAGE)) := by
  have hmain : ∀ k, 1 ≤ k → pages k < PER_PAGE →
      (∀ i, 1 ≤ i → i < k → PER_PAGE ≤ pages i) →
      ∀ fuel, k ≤ fuel →
        get_stockers_count pages fuel
          = some (((List.range' 1 k).map pages).sum) := by
    intro k hk1 hshort hfirst fuel hfuel
    unfold get_stockers_count
    have h := getStockersLoop_eq pages (k - 1) fuel 1 0
      (by rwa [show 1 + (k - 1) = k by omega])
      (fun j hj => hfirst (1 + j) (by omega) (by omega))
      (by omega)
    rw [h, show k - 1 + 1 = k by omega]
    simp
  refine ⟨hmain, ?_, ?_⟩
  · rintro ⟨fuel, hsome⟩
    by_contra hno
    push_neg at hno
    rw [get_stockers_count,
      getStockersLoop_none pages hno fuel 1 0 le_rfl] at hsome
    exact absurd hsome (by simp)
  · intro hex
    have hP : ∃ n, 1 ≤ n ∧ pages n < PER_PAGE := hex
    classical
    have hfind := Nat.find_spec hP
    set k := Nat.find hP with hk
    refine ⟨k, ?_⟩
    have hfirst : ∀ i, 1 ≤ i → i < k → PER_PAGE ≤ pages i := by
      intro i hi1 hik
      have := Nat.find_min hP hik
      push_neg at this
      exact this hi1
    rw [hmain k hfind.1 hfind.2 hfirst k le_rfl]
    rfl

/-- Witness for C4: with page lengths 10, 10, 7, ..., page 3 is the first
short page and the count is 10 + 10 + 7 = 27. -/
theorem stockers_pagination_witness :
    get_stockers_count (fun n => if n < 3 then 10 else 7) 3 = some 27 := by
  have h := (stockers_pagination (fun n => if n < 3 then 10 else 7)).1 3
    (by decide) (by decide)
    (fun i h1 h2 => by simp only [if_pos h2]; decide) 3 le_rfl
  rw [h]
  decide

/-- Absence of the early return on the start bound says exactly that the
start bound, when present, is at most the update time. -/
theorem beforeStart_eq_false_iff (start : Option ℤ) (u : ℤ) :
    beforeStart start u = false ↔ ∀ s, start = some s → s ≤ u := by
  cases start with
  | none => simp [beforeStart]
  | some s => simp [beforeStart, not_lt]

/-- Absence of the early return on the end bound says exactly that the end
bound, when present, is at least the creation time. -/
theorem afterEnd_eq_false_iff (stop : Option ℤ) (c : ℤ) :
    afterEnd stop c = false ↔ ∀ e, stop = some e → c ≤ e := by
  cases stop with
  | none => simp [afterEnd]
  | some e => simp [afterEnd, not_lt]

/-- C2: for every fetched item, the validity flag is true exactly when the
window's start bound (when present) is at most the item's last-update time
and the window's end bound (when present) is at least the item's creation
time; both bounds are inclusive. -/
theorem item_validity (start stop : Option ℤ) (stockerPages : ℕ → ℕ)
    (fuel : ℕ) (resp : ItemResponse) (it : Item) (b : Bool)
    (h : Item.fetch start stop stockerPages fuel resp = some (it, b)) :
    it.is_valid = true ↔
      ((∀ s, start = some s → s ≤ it.updated_at)
        ∧ (∀ e, stop = some e → it.created_at ≤ e)) := by
  unfold Item.fetch at h
  cases hb : beforeStart start resp.updated_at with
  | true =>
      simp only [hb, if_true] at h
      obtain ⟨rfl, rfl⟩ := Prod.mk.injEq .. ▸ Option.some.inj h
      simp only [Item.is_valid]
      constructor
      · intro hf
        exact absurd hf (by simp)
      · intro hf
        have hb2 := (beforeStart_eq_false_iff start resp.updated_at).mpr hf.1
        rw [hb] at hb2
        exact absurd hb2 (by simp)
  | false =>
      simp only [hb, Bool.false_eq_true, if_false] at h
      cases ha : afterEnd stop resp.created_at with
      | true =>
          simp only [ha, if_true] at h
          obtain ⟨rfl, rfl⟩ := Prod.mk.injEq .. ▸ Option.some.inj h
          simp only [Item.is_valid]
          constructor
          · intro hf
            exact absurd hf (by simp)
          · intro hf
            have ha2 := (afterEnd_eq_false_iff stop resp.created_at).mpr hf.2
            rw [ha] at ha2
            exact absurd ha2 (by simp)
      | false =>
          simp only [ha, Bool.false_eq_true, if_false] at h
          cases hsc : get_stockers_count stockerPages fuel with
          | none =>
              rw [hsc] at h
              exact absurd h (by simp)
          | some sc =>
              rw [hsc] at h
              obtain ⟨rfl, rfl⟩ := Prod.mk.injEq .. ▸ Option.some.inj h
              simp only [Item.is_valid, true_iff]
              exact ⟨(beforeStart_eq_false_iff start resp.updated_at).mp hb,
                (afterEnd_eq_false_iff stop resp.created_at).mp ha⟩

/-- Witness for C2 at the claim's boundary case: `updated_at` equal to the
start bound and `created_at` equal to the end bound, so the item is valid. -/
theorem item_validity_witness :
    (⟨10, 5, true, 2, 3, 3⟩ : Item).is_valid = true ↔
      ((∀ s, (some 5 : Option ℤ) = some s
          → s ≤ (⟨10, 5, true, 2, 3, 3⟩ : Item).updated_at)
        ∧ (∀ e, (some 10 : Option ℤ) = some e
          → (⟨10, 5, true, 2, 3, 3⟩ : Item).created_at ≤ e)) :=
  item_validity (some 5) (some 10) (fun _ => 3) 1 ⟨10, 5, 2, 3⟩
    ⟨10, 5, true, 2, 3, 3⟩ true (by decide)

/-- C3: an item that is invalid under the date window comes back with
`is_valid = false`, zero likes/stockers/comments, and the stockers fetch is
not performed (the performed-fetch flag of the model is `false`). -/
theorem item_invalid_returns_zero (start stop : Option ℤ)
    (stockerPages : ℕ → ℕ) (fuel : ℕ) (resp : ItemResponse)
    (h : ¬ ((∀ s, start = some s → s ≤ resp.updated_at)
            ∧ (∀ e, stop = some e → resp.created_at ≤ e))) :
    Item.fetch start stop stockerPages fuel resp =
      some ({ created_at := resp.created_at, updated_at := resp.updated_at,
              is_valid := false, likes_count := 0, stockers_count := 0,
              comments_count := 0 }, false) := by
  unfold Item.fetch
  cases hb : beforeStart start resp.updated_at with
  | true => simp only [hb, if_true]
  | false =>
      have hs := (beforeStart_eq_false_iff start resp.updated_at).mp hb
      cases ha : afterEnd stop resp.created_at with
      | true => simp only [hb, ha, Bool.false_eq_true, if_false, if_true]
      | false =>
          have he := (afterEnd_eq_false_iff stop resp.created_at).mp ha
          exact absurd ⟨hs, he⟩ h

/-- Witness for C3: an item updated before the start bound is returned zeroed
with no stockers fetch (the model even works with zero fuel, because the
pagination loop is never entered). -/
theorem item_invalid_returns_zero_witness :
    Item.fetch (some 5) none (fun _ => 0) 0 ⟨1, 3, 7, 8⟩ =
      some (⟨1, 3, false, 0, 0, 0⟩, false) :=
  item_invalid_returns_zero (some 5) none (fun _ => 0) 0 ⟨1, 3, 7, 8⟩
    (fun hc => absurd (hc.1 5 rfl) (by decide))

/-- C1: the contribution score of every user record is the weighted sum
`items + likes + 0.5 * stockers + 0.5` rounded down (round-half-up of the
weighted sum), and at the claim's concrete inputs: items=0, likes=0,
stockers=1 gives 1, and items=3, likes=10, stockers=5 gives 16. -/
theorem contribution_is_weighted_floor (uid : String) (fe fo : ℕ)
    (items : List Item) :
    ((buildUser uid fe fo items).contribution
        = ⌊((buildUser uid fe fo items).items : ℚ)
            + ((buildUser uid fe fo items).likes : ℚ)
            + (0.5 : ℚ) * ((buildUser uid fe fo items).stockers : ℚ)
            + (0.5 : ℚ)⌋)
    ∧ calc_contribution ⟨0, 0, 1, 0⟩ = 1
    ∧ calc_contribution ⟨3, 10, 5, 0⟩ = 16 := by
  refine ⟨rfl, ?_, ?_⟩
  · rw [calc_contribution_eq_ceil, ceil_half_eq]
    decide
  · rw [calc_contribution_eq_ceil, ceil_half_eq]
    decide

/-- Each field of the accumulation loop, from an arbitrary starting
accumulator: valid-item count plus unconditional sums. -/
theorem foldl_accumItem (items : List Item) (acc : Counts) :
    (items.foldl accumItem acc).items_count
        = acc.items_count + items.countP (fun it => it.is_valid)
    ∧ (items.foldl accumItem acc).likes_count
        = acc.likes_count + (items.map Item.likes_count).sum
    ∧ (items.foldl accumItem acc).stockers_count
        = acc.stockers_count + (items.map Item.stockers_count).sum
    ∧ (items.foldl accumItem acc).comments_count
        = acc.comments_count + (items.map Item.comments_count).sum := by
  induction items generalizing acc with
  | nil => simp
  | cons it rest ih =>
      obtain ⟨h1, h2, h3, h4⟩ := ih (accumItem acc it)
      simp only [List.foldl_cons, List.countP_cons, List.map_cons,
        List.sum_cons, h1, h2, h3, h4]
      simp only [accumItem]
      refine ⟨?_, by omega, by omega, by omega⟩
      cases hv : it.is_valid <;> simp [hv]
      omega

/-- A per-item quantity that vanishes on invalid items sums the same over all
items as over the valid items only. -/
theorem sum_eq_sum_valid (f : Item → ℕ) (items : List Item)
    (hz : ∀ it ∈ items, it.is_valid = false → f it = 0) :
    (items.map f).sum
      = ((items.filter (fun it => it.is_valid)).map f).sum := by
  induction items with
  | nil => rfl
  | cons it rest ih =>
      have ih2 := ih (fun x hx hv => hz x (List.mem_cons_of_mem _ hx) hv)
      simp only [List.map_cons, List.sum_cons, List.filter_cons]
      cases hv : it.is_valid with
      | true => simp [ih2]
      | false =>
          rw [hz it (List.mem_cons_self it rest) hv]
          simp [ih2]

/-- C9: for any list of fetched items, the aggregated `items_count` is the
number of valid items, the other three aggregates are unconditional sums,
and — whenever invalid items carry zeroed fields, as fetched items do — each
unconditional sum equals the sum over valid items only. -/
theorem aggregation_sums (items : List Item)
    (hz : ∀ it ∈ items, it.is_valid = false →
      it.likes_count = 0 ∧ it.stockers_count = 0 ∧ it.comments_count = 0) :
    (calcCounts items).items_count
        = (items.filter (fun it => it.is_valid)).length
    ∧ (calcCounts items).likes_count = (items.map Item.likes_count).sum
    ∧ (calcCounts items).stockers_count
        = (items.map Item.stockers_count).sum
    ∧ (calcCounts items).comments_count
        = (items.map Item.comments_count).sum
    ∧ (items.map Item.likes_count).sum
        = ((items.filter (fun it => it.is_valid)).map Item.likes_count).sum
    ∧ (items.map Item.stockers_count).sum
        = ((items.filter (fun it => it.is_valid)).map
            Item.stockers_count).sum
    ∧ (items.map Item.comments_count).sum
        = ((items.filter (fun it => it.is_valid)).map
            Item.comments_count).sum := by
  obtain ⟨h1, h2, h3, h4⟩ := foldl_accumItem items
    { items_count := 0, likes_count := 0, stockers_count := 0,
      comments_count := 0 }
  refine ⟨?_, ?_, ?_, ?_, ?_, ?_, ?_⟩
  · rw [calcCounts, h1, List.countP_eq_length_filter]
    simp
  · rw [calcCounts, h2]
    simp
  · rw [calcCounts, h3]
    simp
  · rw [calcCounts, h4]
    simp
  · exact sum_eq_sum_valid Item.likes_count items
      (fun it hm hv => ((hz it hm) hv).1)
  · exact sum_eq_sum_valid Item.stockers_count items
      (fun it hm hv => ((hz it hm) hv).2.1)
  · exact sum_eq_sum_valid Item.comments_count items
      (fun it hm hv => ((hz it hm) hv).2.2)

/-- Inserting a record whose contribution is `c` places it in front of every
record with contribution `c` already present: every record passed over by the
insertion has strictly larger contribution. -/
theorem filter_orderedInsert_of_eq (x : UserRecord) (c : ℤ)
    (l : List UserRecord) (hx : x.contribution = c) :
    (l.orderedInsert contribGE x).filter (fun u => u.contribution == c)
      = x :: l.filter (fun u => u.contribution == c) := by
  induction l with
  | nil => simp [List.orderedInsert, hx]
  | cons y ys ih =>
      show (if contribGE x y then x :: y :: ys
            else y :: ys.orderedInsert contribGE x).filter
            (fun u => u.contribution == c)
          = x :: (y :: ys).filter (fun u => u.contribution == c)
      by_cases hr : contribGE x y
      · rw [if_pos hr]
        simp [List.filter_cons, hx]
      · rw [if_neg hr]
        have hy : (y.contribution == c) = false := by
          rw [beq_eq_false_iff_ne]
          intro hyc
          exact hr (le_of_eq (hyc.trans hx.symm))
        rw [List.filter_cons, List.filter_cons]
        simp only [hy, cond_false, Bool.false_eq_true, if_false]
        exact ih

/-- Inserting a record whose contribution is not `c` does not disturb the
subsequence of records with contribution `c`. -/
theorem filter_orderedInsert_of_ne (x : UserRecord) (c : ℤ)
    (l : List UserRecord) (hx : x.contribution ≠ c) :
    (l.orderedInsert contribGE x).filter (fun u => u.contribution == c)
      = l.filter (fun u => u.contribution == c) := by
  induction l with
  | nil => simp [List.orderedInsert, hx]
  | cons y ys ih =>
      show (if contribGE x y then x :: y :: ys
            else y :: ys.orderedInsert contribGE x).filter
            (fun u => u.contribution == c)
          = (y :: ys).filter (fun u => u.contribution == c)
      by_cases hr : contribGE x y
      · rw [if_pos hr]
        simp [List.filter_cons, hx]
      · rw [if_neg hr]
        rw [List.filter_cons, List.filter_cons, ih]

/-- Stability of the sort: for each score `c`, the records scoring `c` appear
in the sorted output in exactly their input order. -/
theorem filter_sortContributions (l : List UserRecord) (c : ℤ) :
    (sortContributions l).filter (fun u => u.contribution == c)
      = l.filter (fun u => u.contribution == c) := by
  induction l with
  | nil => rfl
  | cons x xs ih =>
      unfold sortContributions at ih ⊢
      show ((List.insertionSort contribGE xs).orderedInsert
            contribGE x).filter (fun u => u.contribution == c)
          = (x :: xs).filter (fun u => u.contribution == c)
      by_cases hx : x.contribution = c
      · rw [filter_orderedInsert_of_eq x c _ hx, ih, List.filter_cons]
        simp [hx]
      · rw [filter_orderedInsert_of_ne x c _ hx, ih, List.filter_cons]
        simp [hx]

/-- First user of the C5 ranking example (fetched first, contribution 10). -/
def userA : UserRecord := ⟨"a", 0, 0, 0, 0, 0, 0, 10⟩

/-- Second user of the C5 ranking example (contribution 25). -/
def userB : UserRecord := ⟨"b", 0, 0, 0, 0, 0, 0, 25⟩

/-- Third user of the C5 ranking example (contribution 25, tied with the
second and fetched after it). -/
def userC : UserRecord := ⟨"c", 0, 0, 0, 0, 0, 0, 25⟩

/-- C5: the report sorts the records by contribution descending with a
stable sort (per-score subsequences keep input order), the rank column is
the 1-based position in the sorted order, and on the concrete input with
contributions [10, 25, 25] the users get ranks [3, 1, 2] with the tie in
fetch order. -/
theorem report_ranking (l : List UserRecord) :
    List.Perm (sortContributions l) l
    ∧ List.Sorted contribGE (sortContributions l)
    ∧ (∀ c : ℤ, (sortContributions l).filter (fun u => u.contribution == c)
        = l.filter (fun u => u.contribution == c))
    ∧ (report l).map Prod.fst = List.range' 1 l.length
    ∧ (report l).map Prod.snd = sortContributions l
    ∧ report [userA, userB, userC]
        = [(1, userB), (2, userC), (3, userA)] := by
  refine ⟨List.perm_insertionSort contribGE l,
    List.sorted_insertionSort contribGE l,
    fun c => filter_sortContributions l c, ?_, ?_, ?_⟩
  · unfold report
    rw [List.map_map]
    have h1 : ((sortContributions l).enum.map
          ((fun p : ℕ × UserRecord => Prod.fst p)
            ∘ fun p : ℕ × UserRecord => (p.1 + 1, p.2)))
        = (((sortContributions l).enum.map Prod.fst).map
            (fun n => n + 1)) := by
      rw [List.map_map]
      rfl
    rw [h1, List.enum_map_fst, List.range'_eq_map_range]
    have h2 : (sortContributions l).length = l.length :=
      (List.perm_insertionSort contribGE l).length_eq
    rw [h2]
    exact List.map_congr_left (fun a _ => Nat.add_comm a 1)
  · unfold report
    rw [List.map_map]
    have h1 : ((fun p : ℕ × UserRecord => Prod.snd p)
          ∘ fun p : ℕ × UserRecord => (p.1 + 1, p.2)) = Prod.snd := rfl
    rw [h1]
    exact List.enum_map_snd _
  · decide

/-- Concrete item list for the C9 witness: one valid item with nonzero
counts, one zeroed invalid item. -/
def itemsW : List Item :=
  [⟨0, 0, true, 5, 2, 1⟩, ⟨0, 0, false, 0, 0, 0⟩]

/-- Witness for C9 on `itemsW`. -/
theorem aggregation_sums_witness :
    (calcCounts itemsW).items_count
        = (itemsW.filter (fun it => it.is_valid)).length
    ∧ (calcCounts itemsW).likes_count = (itemsW.map Item.likes_count).sum
    ∧ (calcCounts itemsW).stockers_count
        = (itemsW.map Item.stockers_count).sum
    ∧ (calcCounts itemsW).comments_count
        = (itemsW.map Item.comments_count).sum
    ∧ (itemsW.map Item.likes_count).sum
        = ((itemsW.filter (fun it => it.is_valid)).map Item.likes_count).sum
    ∧ (itemsW.map Item.stockers_count).sum
        = ((itemsW.filter (fun it => it.is_valid)).map
            Item.stockers_count).sum
    ∧ (itemsW.map Item.comments_count).sum
        = ((itemsW.filter (fun it => it.is_valid)).map
            Item.comments_count).sum :=
  aggregation_sums itemsW (by decide)

/-- C10: the (exact-rational model of the) floating-point contribution
computation agrees with the pure-integer expression
`items_count + likes_count + ceil(stockers_count / 2)`, where the ceiling of
the half is `(stockers_count + 1) / 2` in integer division. -/
theorem contribution_float_eq_int (i l s m : ℕ) :
    calc_contribution ⟨i, l, s, m⟩ = contribution_intSpec i l s
    ∧ contribution_intSpec i l s
        = (i : ℤ) + (l : ℤ) + (((s + 1) / 2 : ℕ) : ℤ) := by
  constructor
  · rw [calc_contribution_eq_ceil]
    rfl
  · unfold contribution_intSpec
    rw [ceil_half_eq]

/-- C6: when at least one user aggregates successfully, the run succeeds:
each failing user is skipped (only the `Except.ok` records, in input order,
reach the report) and the report has one data row per successful user. -/
theorem partial_failure_tolerance (results : List (Except String UserRecord))
    (h : 0 < (okRecords results).length) :
    runMain results = Except.ok (report (okRecords results))
    ∧ (report (okRecords results)).length = (okRecords results).length := by
  constructor
  · unfold runMain
    rw [if_neg (by omega)]
  · unfold report
    rw [List.length_map, List.enum_length]
    exact (List.perm_insertionSort contribGE (okRecords results)).length_eq

/-- First successful record for the C6 witness. -/
def okUserA : UserRecord := ⟨"u1", 1, 2, 3, 4, 5, 6, 7⟩

/-- Second successful record for the C6 witness. -/
def okUserB : UserRecord := ⟨"u2", 1, 2, 3, 4, 5, 6, 9⟩

/-- Error message of the failing user in the C6 and C7 witnesses. -/
def failMsg : String := "transport error"

/-- Outcome list for the C6 witness: three requested users, the middle one
failing. -/
def resultsW : List (Except String UserRecord) :=
  [Except.ok okUserA, Except.error failMsg, Except.ok okUserB]

/-- Witness for C6: with 3 requested users of which one fails, the run
succeeds and the report has exactly 2 data rows. -/
theorem partial_failure_tolerance_witness :
    (runMain resultsW = Except.ok (report (okRecords resultsW))
      ∧ (report (okRecords resultsW)).length = (okRecords resultsW).length)
    ∧ resultsW.length = 3 ∧ (okRecords resultsW).length = 2 :=
  ⟨partial_failure_tolerance resultsW (by decide), by decide, by decide⟩

/-- C7: when every requested user fails (zero successful records), the run
fails with the no-data error; the source opens the output file only after
this check, so no output file content is produced. -/
theorem total_failure_no_output (results : List (Except String UserRecord))
    (h : okRecords results = []) :
    runMain results = Except.error noDataMsg := by
  unfold runMain
  rw [h]
  rfl

/-- Witness for C7: a single requested user that fails. -/
theorem total_failure_no_output_witness :
    runMain [Except.error failMsg] = Except.error noDataMsg :=
  total_failure_no_output [Except.error failMsg] rfl

/-- C8: the normalized end bound is 23:59:59 (= 23·3600 + 59·60 + 59 seconds
past midnight) of the given calendar day, the item filter accepts a creation
time against it exactly when the creation time is at most that instant, and
at the concrete epoch second of 2024-01-01T00:00:00 the bound is the epoch
second of 2024-01-01T23:59:59. -/
theorem end_normalization (dayStart : ℤ) :
    normalizeEnd dayStart = dayStart + (23 * 3600 + 59 * 60 + 59)
    ∧ (∀ c : ℤ, afterEnd (some (normalizeEnd dayStart)) c = false
        ↔ c ≤ dayStart + (23 * 3600 + 59 * 60 + 59))
    ∧ normalizeEnd 1704067200 = 1704153599 := by
  have hval : normalizeEnd dayStart = dayStart + (23 * 3600 + 59 * 60 + 59) := by
    unfold normalizeEnd secondsPerDay
    ring
  refine ⟨hval, ?_, by decide⟩
  intro c
  rw [hval]
  simp [afterEnd, not_lt]

end QiitaContribution
